import Mathlib

/-!
Shallow embedding of `poll.py` (mattermost-poll): the `Poll` class, its
vote ledger (the `Votes` table rows for one poll), the tally queries and
the `vote` / `end` state machine.

A poll's persistent state is modelled by `PollState`; the `Votes` table
rows belonging to the poll are the `ledger`, a list of `(voter, vote)`
pairs (the `poll_id` column is implicit: one `PollState` is one poll).
Option indices are `Int` because callers may pass negative indices
(`vote(voter, -1)` in the spec); the clamped `max_votes` is a `Nat`
(the clamp `max(1, min(max_votes, len(vote_options)))` guarantees it is
positive).
-/

structure PollState where
  creator_id : String
  message : String
  vote_options : List String
  secret : Bool
  public : Bool
  max_votes : Nat
  finished : Bool
  ledger : List (String × Int)
  deriving Repr, DecidableEq

/-- `SELECT vote FROM Votes WHERE poll_id=? AND voter=?`, as a function of
the ledger rows. -/
def votesOf (L : List (String × Int)) (user_id : String) : List Int :=
  (L.filter (fun r => r.1 = user_id)).map (fun r => r.2)

/-- `Poll.votes`: the option indices the user currently holds a row for. -/
def votes (p : PollState) (user_id : String) : List Int :=
  votesOf p.ledger user_id

/-- `Poll.voters`: `SELECT voter FROM Votes WHERE poll_id=? AND vote=?`. -/
def voters (p : PollState) (vote_id : Int) : List String :=
  (p.ledger.filter (fun r => r.2 = vote_id)).map (fun r => r.1)

/-- `Poll.count_votes`: number of rows with the given option index. -/
def count_votes (p : PollState) (vote_id : Int) : Nat :=
  (p.ledger.filter (fun r => r.2 = vote_id)).length

/-- `Poll.num_votes`: number of rows for the poll. -/
def num_votes (p : PollState) : Nat :=
  p.ledger.length

/-- `Poll.num_voters`: `SELECT COUNT(vote) ... GROUP BY voter` produces one
output row per distinct voter; the method returns how many such rows. -/
def num_voters (p : PollState) : Nat :=
  (p.ledger.map (fun r => r.1)).dedup.length

/-- `Poll.is_finished`: reads the `finished` flag. -/
def is_finished (p : PollState) : Bool :=
  p.finished

/-- The two error kinds `Poll.vote` can raise: `IndexError` for an invalid
`vote_id` and `NoMoreVotesError` when all votes are used. -/
inductive VoteError where
  | indexError
  | noMoreVotesError
  deriving Repr, DecidableEq

/-- `Poll.vote(user_id, vote_id)`, line for line:
finished poll → silent no-op; `vote_id < 0 or vote_id >= len(vote_options)`
→ `IndexError`; already voted for it → `DELETE` that row (unvote);
otherwise if all votes are used: with `max_votes == 1` first `DELETE` every
row of the voter, else raise `NoMoreVotesError`; finally `INSERT` the new
row. -/
def vote (p : PollState) (user_id : String) (vote_id : Int) :
    Except VoteError PollState :=
  if is_finished p then Except.ok p
  else if vote_id < 0 ∨ (p.vote_options.length : Int) ≤ vote_id then
    Except.error VoteError.indexError
  else if vote_id ∈ votes p user_id then
    Except.ok { p with
      ledger := p.ledger.filter (fun r => ¬(r.1 = user_id ∧ r.2 = vote_id)) }
  else if p.max_votes ≤ (votes p user_id).length then
    if p.max_votes = 1 then
      Except.ok { p with
        ledger := p.ledger.filter (fun r => ¬(r.1 = user_id))
                    ++ [(user_id, vote_id)] }
    else Except.error VoteError.noMoreVotesError
  else Except.ok { p with ledger := p.ledger ++ [(user_id, vote_id)] }

/-- `Poll.end`: `UPDATE Polls SET finished=1`. (`end` is a Lean keyword.) -/
def endPoll (p : PollState) : PollState :=
  { p with finished := true }

/-- `Poll.create`: empty `vote_options` is replaced by `['Yes', 'No']`,
`max_votes` is clamped to `[1, len(vote_options)]`, and the poll starts
unfinished with no votes. -/
def create (creator_id message : String) (vote_options : List String)
    (secret public : Bool) (max_votes : Int) : PollState :=
  let opts := if vote_options.isEmpty then ["Yes", "No"] else vote_options
  { creator_id := creator_id
    message := message
    vote_options := opts
    secret := secret
    public := public
    max_votes := (max 1 (min max_votes (opts.length : Int))).toNat
    finished := false
    ledger := [] }

/-- Running a list of `vote` calls of one user in order, stopping at the
first error (an uncaught exception aborts the caller's flow). -/
def runVotes (p : PollState) (user_id : String) :
    List Int → Except VoteError PollState
  | [] => Except.ok p
  | v :: rest =>
    match vote p user_id v with
    | Except.ok p' => runVotes p' user_id rest
    | Except.error e => Except.error e

/-- States reachable through the public operations. -/
inductive Reachable : PollState → Prop where
  | created : ∀ c m opts s pub mv, Reachable (create c m opts s pub mv)
  | voted : ∀ p u v p', Reachable p → vote p u v = Except.ok p' →
      Reachable p'
  | ended : ∀ p, Reachable p → Reachable (endPoll p)

/-- The database invariants of the `Votes` table for one poll: the SQL
constraint `UNIQUE (poll_id, voter, vote)` (no duplicate rows) and the fact
that `vote` only ever inserts in-range option indices. -/
def Wf (p : PollState) : Prop :=
  p.ledger.Nodup ∧
  ∀ r ∈ p.ledger, 0 ≤ r.2 ∧ r.2 < (p.vote_options.length : Int)

/-! ## Branch lemmas for `vote` -/

theorem vote_of_finished (p : PollState) (u : String) (v : Int)
    (h : p.finished = true) : vote p u v = Except.ok p := by
  unfold vote
  rw [if_pos (by simpa [is_finished] using h)]

theorem vote_out_of_range (p : PollState) (u : String) (v : Int)
    (hf : p.finished = false)
    (h : v < 0 ∨ (p.vote_options.length : Int) ≤ v) :
    vote p u v = Except.error VoteError.indexError := by
  unfold vote
  rw [if_neg (by simp [is_finished, hf]), if_pos h]

theorem vote_unvote (p : PollState) (u : String) (v : Int)
    (hf : p.finished = false)
    (hr : ¬(v < 0 ∨ (p.vote_options.length : Int) ≤ v))
    (hm : v ∈ votes p u) :
    vote p u v = Except.ok { p with
      ledger := p.ledger.filter (fun r => ¬(r.1 = u ∧ r.2 = v)) } := by
  unfold vote
  rw [if_neg (by simp [is_finished, hf]), if_neg hr, if_pos hm]

theorem vote_overwrite (p : PollState) (u : String) (v : Int)
    (hf : p.finished = false)
    (hr : ¬(v < 0 ∨ (p.vote_options.length : Int) ≤ v))
    (hm : v ∉ votes p u) (hc : p.max_votes ≤ (votes p u).length)
    (h1 : p.max_votes = 1) :
    vote p u v = Except.ok { p with
      ledger := p.ledger.filter (fun r => ¬(r.1 = u)) ++ [(u, v)] } := by
  unfold vote
  rw [if_neg (by simp [is_finished, hf]), if_neg hr, if_neg hm, if_pos hc,
    if_pos h1]

theorem vote_no_more (p : PollState) (u : String) (v : Int)
    (hf : p.finished = false)
    (hr : ¬(v < 0 ∨ (p.vote_options.length : Int) ≤ v))
    (hm : v ∉ votes p u) (hc : p.max_votes ≤ (votes p u).length)
    (h1 : p.max_votes ≠ 1) :
    vote p u v = Except.error VoteError.noMoreVotesError := by
  unfold vote
  rw [if_neg (by simp [is_finished, hf]), if_neg hr, if_neg hm, if_pos hc,
    if_neg h1]

theorem vote_insert (p : PollState) (u : String) (v : Int)
    (hf : p.finished = false)
    (hr : ¬(v < 0 ∨ (p.vote_options.length : Int) ≤ v))
    (hm : v ∉ votes p u) (hc : ¬(p.max_votes ≤ (votes p u).length)) :
    vote p u v = Except.ok { p with ledger := p.ledger ++ [(u, v)] } := by
  unfold vote
  rw [if_neg (by simp [is_finished, hf]), if_neg hr, if_neg hm, if_neg hc]

/-! ## Ledger lemmas -/

theorem mem_votesOf {L : List (String × Int)} {u : String} {v : Int} :
    v ∈ votesOf L u ↔ (u, v) ∈ L := by
  simp only [votesOf, List.mem_map, List.mem_filter, decide_eq_true_eq]
  constructor
  · rintro ⟨⟨a, b⟩, ⟨hmem, h1⟩, h2⟩
    simp only at h1 h2
    subst h1; subst h2; exact hmem
  · intro h
    exact ⟨(u, v), ⟨h, rfl⟩, rfl⟩

theorem mem_votes {p : PollState} {u : String} {v : Int} :
    v ∈ votes p u ↔ (u, v) ∈ p.ledger := mem_votesOf

theorem votesOf_append_self (L : List (String × Int)) (u : String) (v : Int) :
    votesOf (L ++ [(u, v)]) u = votesOf L u ++ [v] := by
  simp [votesOf, List.filter_append]

theorem votesOf_append_ne (L : List (String × Int)) {u u' : String} (v : Int)
    (h : u ≠ u') : votesOf (L ++ [(u, v)]) u' = votesOf L u' := by
  simp [votesOf, List.filter_append, h]

theorem mem_filter_unvote {L : List (String × Int)} {u : String} {v : Int}
    (r : String × Int) :
    r ∈ L.filter (fun r => ¬(r.1 = u ∧ r.2 = v)) ↔ r ∈ L ∧ r ≠ (u, v) := by
  simp only [List.mem_filter, decide_eq_true_eq, ne_eq, Prod.ext_iff]

theorem filter_unvote_eq_of_not_mem {L : List (String × Int)} {u : String}
    {v : Int} (h : (u, v) ∉ L) :
    L.filter (fun r => ¬(r.1 = u ∧ r.2 = v)) = L := by
  apply List.filter_eq_self.mpr
  intro r hr
  simp only [decide_eq_true_eq]
  rintro ⟨h1, h2⟩
  apply h
  obtain ⟨a, b⟩ := r
  simp only at h1 h2
  subst h1; subst h2
  exact hr

theorem filter_unvote_append {L : List (String × Int)} {u : String} {v : Int}
    (h : (u, v) ∉ L) :
    (L ++ [(u, v)]).filter (fun r => ¬(r.1 = u ∧ r.2 = v)) = L := by
  rw [List.filter_append, filter_unvote_eq_of_not_mem h]
  simp

theorem length_filter_unvote {L : List (String × Int)} {u : String} {v : Int}
    (hnd : L.Nodup) (hm : (u, v) ∈ L) :
    (L.filter (fun r => ¬(r.1 = u ∧ r.2 = v))).length + 1 = L.length := by
  have hcongr : L.filter (fun r => ¬(r.1 = u ∧ r.2 = v))
      = L.filter (fun r => r != (u, v)) := by
    apply List.filter_congr
    intro r _
    rw [Bool.eq_iff_iff]
    simp only [decide_eq_true_eq, bne_iff_ne, ne_eq, Prod.ext_iff]
  rw [hcongr, ← hnd.erase_eq_filter (u, v), List.length_erase_of_mem hm]
  have := List.length_pos_of_mem hm
  omega

theorem votesOf_overwrite (L : List (String × Int)) (u : String) (v : Int) :
    votesOf (L.filter (fun r => ¬(r.1 = u)) ++ [(u, v)]) u = [v] := by
  rw [votesOf_append_self]
  have h0 : votesOf (L.filter (fun r => ¬(r.1 = u))) u = [] := by
    unfold votesOf
    rw [List.filter_filter]
    have : L.filter (fun r => decide (r.1 = u) && decide ¬(r.1 = u)) = [] := by
      apply List.filter_eq_nil_iff.mpr
      intro r _
      simp
    rw [this, List.map_nil]
  rw [h0, List.nil_append]

theorem votesOf_overwrite_ne (L : List (String × Int)) {u u' : String}
    (v : Int) (h : u ≠ u') :
    votesOf (L.filter (fun r => ¬(r.1 = u)) ++ [(u, v)]) u'
      = votesOf L u' := by
  rw [votesOf_append_ne _ v h]
  unfold votesOf
  congr 1
  rw [List.filter_filter]
  apply List.filter_congr
  intro r hr
  rw [Bool.eq_iff_iff]
  simp only [Bool.and_eq_true, decide_eq_true_eq]
  constructor
  · rintro ⟨h1, _⟩; exact h1
  · intro h1; exact ⟨h1, by rw [h1]; exact fun hc => h hc.symm⟩

/-! ## Case analysis of a successful `vote`, and the reachability invariant -/

theorem vote_ok_inv (p p' : PollState) (u : String) (v : Int)
    (h : vote p u v = Except.ok p') :
    p' = p ∨
    (p.finished = false ∧ 0 ≤ v ∧ v < (p.vote_options.length : Int) ∧
      ((v ∈ votes p u ∧
         p' = { p with
           ledger := p.ledger.filter (fun r => ¬(r.1 = u ∧ r.2 = v)) }) ∨
       (v ∉ votes p u ∧ p.max_votes = 1 ∧
         p.max_votes ≤ (votes p u).length ∧
         p' = { p with
           ledger := p.ledger.filter (fun r => ¬(r.1 = u)) ++ [(u, v)] }) ∨
       (v ∉ votes p u ∧ (votes p u).length < p.max_votes ∧
         p' = { p with ledger := p.ledger ++ [(u, v)] }))) := by
  by_cases hf : p.finished = true
  · rw [vote_of_finished p u v hf] at h
    exact Or.inl (Except.ok.inj h).symm
  · have hf' : p.finished = false := by revert hf; cases p.finished <;> simp
    by_cases hr : v < 0 ∨ (p.vote_options.length : Int) ≤ v
    · rw [vote_out_of_range p u v hf' hr] at h
      exact absurd h (by simp)
    · have hb : 0 ≤ v ∧ v < (p.vote_options.length : Int) := by
        push_neg at hr
        exact ⟨le_of_not_lt (fun hlt => (by omega : False)), by omega⟩
      by_cases hm : v ∈ votes p u
      · rw [vote_unvote p u v hf' hr hm] at h
        exact Or.inr ⟨hf', hb.1, hb.2, Or.inl ⟨hm, (Except.ok.inj h).symm⟩⟩
      · by_cases hc : p.max_votes ≤ (votes p u).length
        · by_cases h1 : p.max_votes = 1
          · rw [vote_overwrite p u v hf' hr hm hc h1] at h
            exact Or.inr ⟨hf', hb.1, hb.2,
              Or.inr (Or.inl ⟨hm, h1, hc, (Except.ok.inj h).symm⟩)⟩
          · rw [vote_no_more p u v hf' hr hm hc h1] at h
            exact absurd h (by simp)
        · rw [vote_insert p u v hf' hr hm hc] at h
          exact Or.inr ⟨hf', hb.1, hb.2,
            Or.inr (Or.inr ⟨hm, lt_of_not_le hc, (Except.ok.inj h).symm⟩)⟩

/-- A successful `vote` never touches the poll metadata: only the `Votes`
table changes. -/
theorem vote_ok_meta (p p' : PollState) (u : String) (v : Int)
    (h : vote p u v = Except.ok p') :
    p'.vote_options = p.vote_options ∧ p'.max_votes = p.max_votes ∧
    p'.finished = p.finished := by
  rcases vote_ok_inv p p' u v h with rfl | ⟨_, _, _, hc⟩
  · exact ⟨rfl, rfl, rfl⟩
  · rcases hc with ⟨_, rfl⟩ | ⟨_, _, _, rfl⟩ | ⟨_, _, rfl⟩ <;>
      exact ⟨rfl, rfl, rfl⟩

theorem wf_create (c m : String) (opts : List String) (s pub : Bool)
    (mv : Int) : Wf (create c m opts s pub mv) := by
  refine ⟨List.nodup_nil, ?_⟩
  intro r hr
  exact absurd hr (List.not_mem_nil r)

theorem wf_vote (p p' : PollState) (u : String) (v : Int) (hw : Wf p)
    (h : vote p u v = Except.ok p') : Wf p' := by
  obtain ⟨hnd, hrange⟩ := hw
  rcases vote_ok_inv p p' u v h with rfl | ⟨_, hv0, hvlt, hc⟩
  · exact ⟨hnd, hrange⟩
  · rcases hc with ⟨_, rfl⟩ | ⟨hm, _, _, rfl⟩ | ⟨hm, _, rfl⟩
    · refine ⟨hnd.filter _, ?_⟩
      intro r hr
      exact hrange r (List.mem_of_mem_filter hr)
    · constructor
      · apply List.Nodup.append (hnd.filter _) (List.nodup_singleton _)
        intro a ha hb
        rw [List.mem_singleton] at hb
        subst hb
        have := List.of_mem_filter ha
        simp at this
      · intro r hr
        rcases List.mem_append.mp hr with hr' | hr'
        · exact hrange r (List.mem_of_mem_filter hr')
        · rw [List.mem_singleton] at hr'
          subst hr'
          exact ⟨hv0, hvlt⟩
    · constructor
      · apply List.Nodup.append hnd (List.nodup_singleton _)
        intro a ha hb
        rw [List.mem_singleton] at hb
        subst hb
        exact hm (mem_votes.mpr ha)
      · intro r hr
        rcases List.mem_append.mp hr with hr' | hr'
        · exact hrange r hr'
        · rw [List.mem_singleton] at hr'
          subst hr'
          exact ⟨hv0, hvlt⟩

theorem wf_end (p : PollState) (hw : Wf p) : Wf (endPoll p) := by
  obtain ⟨hnd, hrange⟩ := hw
  exact ⟨hnd, hrange⟩

/-- Every reachable state satisfies the `Votes`-table invariants. -/
theorem reachable_wf (p : PollState) (h : Reachable p) : Wf p := by
  induction h with
  | created c m opts s pub mv => exact wf_create c m opts s pub mv
  | voted q u v q' _ hok ih => exact wf_vote q q' u v ih hok
  | ended q _ ih => exact wf_end q ih

/-! ## Toggle parity -/

/-- If two states swap under a repeated identical `vote` call, then `n`
such calls all succeed and land on the first state for even `n` and the
second for odd `n`. -/
theorem runVotes_toggle (u : String) (X : Int) :
    ∀ (n : Nat) (a b : PollState), vote a u X = Except.ok b →
      vote b u X = Except.ok a →
      runVotes a u (List.replicate n X)
        = Except.ok (if n % 2 = 1 then b else a)
  | 0, a, _, _, _ => by simp [runVotes]
  | n + 1, a, b, hab, hba => by
    have step : runVotes a u (List.replicate (n + 1) X)
        = runVotes b u (List.replicate n X) := by
      rw [List.replicate_succ]
      simp [runVotes, hab]
    rw [step, runVotes_toggle u X n b a hba hab]
    by_cases hn : n % 2 = 1
    · rw [if_pos hn, if_neg (by omega)]
    · rw [if_neg hn, if_pos (by omega)]

/-- Casting a fresh vote (room available) and casting the same option again
returns to exactly the original state: insert then unvote cancel. -/
theorem vote_cast_uncast (p : PollState) (u : String) (X : Int)
    (hf : p.finished = false) (h0 : 0 ≤ X)
    (hlt : X < (p.vote_options.length : Int))
    (hm : X ∉ votes p u) (hroom : (votes p u).length < p.max_votes) :
    vote p u X = Except.ok { p with ledger := p.ledger ++ [(u, X)] } ∧
    vote { p with ledger := p.ledger ++ [(u, X)] } u X = Except.ok p := by
  have hr : ¬(X < 0 ∨ (p.vote_options.length : Int) ≤ X) := by omega
  constructor
  · exact vote_insert p u X hf hr hm (by omega)
  · have hm1 : X ∈ votes { p with ledger := p.ledger ++ [(u, X)] } u := by
      show X ∈ votesOf (p.ledger ++ [(u, X)]) u
      rw [votesOf_append_self]
      exact List.mem_append_right _ (List.mem_singleton_self X)
    have := vote_unvote { p with ledger := p.ledger ++ [(u, X)] } u X hf hr hm1
    rw [this, filter_unvote_append (fun hc => hm (mem_votes.mpr hc))]

/-! ## Claim C1 -/

/-- C1: on an unfinished poll with a valid option `X`, a voter who holds a
record for `X` has exactly that one record deleted by `vote` (an unvote),
which succeeds; and a fresh cast of `X`, recast, and a third cast toggle
between the two states, so after `n` casts the voter holds `X` iff `n` is
odd and `votes` reflects exactly this parity. -/
theorem claim_C1 (p : PollState) (u : String) (X : Int)
    (hf : p.finished = false) (h0 : 0 ≤ X)
    (hlt : X < (p.vote_options.length : Int)) :
    (p.ledger.Nodup → X ∈ votes p u →
      ∃ p', vote p u X = Except.ok p' ∧
        num_votes p' + 1 = num_votes p ∧
        (∀ r, r ∈ p'.ledger ↔ r ∈ p.ledger ∧ r ≠ (u, X))) ∧
    (X ∉ votes p u → (votes p u).length < p.max_votes →
      ∃ p1, vote p u X = Except.ok p1 ∧ vote p1 u X = Except.ok p ∧
        votes p1 u = votes p u ++ [X] ∧ X ∈ votes p1 u ∧
        (∀ n, runVotes p u (List.replicate n X)
          = Except.ok (if n % 2 = 1 then p1 else p))) := by
  have hr : ¬(X < 0 ∨ (p.vote_options.length : Int) ≤ X) := by omega
  constructor
  · intro hnd hm
    refine ⟨_, vote_unvote p u X hf hr hm, ?_, ?_⟩
    · exact length_filter_unvote hnd (mem_votes.mp hm)
    · intro r; exact mem_filter_unvote r
  · intro hm hroom
    obtain ⟨h1, h2⟩ := vote_cast_uncast p u X hf h0 hlt hm hroom
    refine ⟨_, h1, h2, ?_, ?_, ?_⟩
    · show votesOf (p.ledger ++ [(u, X)]) u = votes p u ++ [X]
      exact votesOf_append_self _ _ _
    · show X ∈ votesOf (p.ledger ++ [(u, X)]) u
      rw [votesOf_append_self]
      exact List.mem_append_right _ (List.mem_singleton_self X)
    · intro n
      exact runVotes_toggle u X n _ _ h1 h2

/-- A small concrete unfinished poll: two options, `max_votes = 2`, one
vote on record. -/
def pollW1 : PollState :=
  { creator_id := "creator"
    message := "fruit?"
    vote_options := ["Apples", "Bananas"]
    secret := false
    public := false
    max_votes := 2
    finished := false
    ledger := [("alice", 0)] }

/-- C1 instantiated on `pollW1`, voter `alice`, option `0`. -/
theorem claim_C1_witness :
    (pollW1.ledger.Nodup → (0 : Int) ∈ votes pollW1 "alice" →
      ∃ p', vote pollW1 "alice" 0 = Except.ok p' ∧
        num_votes p' + 1 = num_votes pollW1 ∧
        (∀ r, r ∈ p'.ledger ↔ r ∈ pollW1.ledger ∧ r ≠ ("alice", 0))) ∧
    ((0 : Int) ∉ votes pollW1 "alice" →
      (votes pollW1 "alice").length < pollW1.max_votes →
      ∃ p1, vote pollW1 "alice" 0 = Except.ok p1 ∧
        vote p1 "alice" 0 = Except.ok pollW1 ∧
        votes p1 "alice" = votes pollW1 "alice" ++ [0] ∧
        (0 : Int) ∈ votes p1 "alice" ∧
        (∀ n, runVotes pollW1 "alice" (List.replicate n 0)
          = Except.ok (if n % 2 = 1 then p1 else pollW1))) :=
  claim_C1 pollW1 "alice" 0 rfl (by decide) (by decide)

/-! ## Claim C2 -/

theorem votesOf_sublist {L1 L2 : List (String × Int)} (u : String)
    (h : List.Sublist L1 L2) : List.Sublist (votesOf L1 u) (votesOf L2 u) :=
  (h.filter _).map _

/-- One successful `vote` on a single-choice poll keeps the voter at ≤ 1
recorded vote. -/
theorem vote_max1_step (p q : PollState) (u : String) (v : Int)
    (hmax : p.max_votes = 1) (hle : (votes p u).length ≤ 1)
    (hok : vote p u v = Except.ok q) : (votes q u).length ≤ 1 := by
  rcases vote_ok_inv p q u v hok with rfl | ⟨_, _, _, hc⟩
  · exact hle
  · rcases hc with ⟨_, rfl⟩ | ⟨_, _, _, rfl⟩ | ⟨_, hroom, rfl⟩
    · have hsub : List.Sublist
          (votesOf (p.ledger.filter (fun r => ¬(r.1 = u ∧ r.2 = v))) u)
          (votesOf p.ledger u) :=
        votesOf_sublist u (List.filter_sublist p.ledger)
      exact le_trans hsub.length_le hle
    · show (votesOf (p.ledger.filter (fun r => ¬(r.1 = u)) ++ [(u, v)])
          u).length ≤ 1
      rw [votesOf_overwrite]
      exact le_refl 1
    · show (votesOf (p.ledger ++ [(u, v)]) u).length ≤ 1
      rw [votesOf_append_self, List.length_append]
      have h0len : (votes p u).length = 0 := by omega
      simp only [votes] at h0len
      simp [h0len]

theorem runVotes_max1_le_one (u : String) :
    ∀ (casts : List Int) (p p' : PollState), p.max_votes = 1 →
      (votes p u).length ≤ 1 → runVotes p u casts = Except.ok p' →
      (votes p' u).length ≤ 1
  | [], p, p', _, hle, h => by
    rw [show p' = p from (Except.ok.inj h).symm]
    exact hle
  | v :: rest, p, p', hmax, hle, h => by
    cases hv : vote p u v with
    | error e =>
      rw [runVotes, hv] at h
      exact absurd h (by simp)
    | ok q =>
      rw [runVotes, hv] at h
      exact runVotes_max1_le_one u rest q p'
        ((vote_ok_meta p q u v hv).2.1.trans hmax)
        (vote_max1_step p q u v hmax hle hv) h

/-- C2: on a single-choice poll (`max_votes = 1`), any sequence of
successful `vote` calls by one voter keeps `votes(voter)` at length ≤ 1,
and casting a new option while already holding one first deletes all of
the voter's records and then inserts the new one, so `votes(voter)` ends
up exactly `[new option]` while other voters are untouched. -/
theorem claim_C2 (p : PollState) (u : String) (hmax : p.max_votes = 1) :
    (∀ casts p', (votes p u).length ≤ 1 →
      runVotes p u casts = Except.ok p' → (votes p' u).length ≤ 1) ∧
    (∀ v : Int, p.finished = false → 0 ≤ v →
      v < (p.vote_options.length : Int) → v ∉ votes p u →
      1 ≤ (votes p u).length →
      ∃ p', vote p u v = Except.ok p' ∧
        p'.ledger = p.ledger.filter (fun r => ¬(r.1 = u)) ++ [(u, v)] ∧
        votes p' u = [v] ∧
        (∀ u', u ≠ u' → votes p' u' = votes p u')) := by
  constructor
  · intro casts p' hle h
    exact runVotes_max1_le_one u casts p p' hmax hle h
  · intro v hf h0 hlt hm hheld
    have hr : ¬(v < 0 ∨ (p.vote_options.length : Int) ≤ v) := by omega
    have hc : p.max_votes ≤ (votes p u).length := by omega
    refine ⟨_, vote_overwrite p u v hf hr hm hc hmax, rfl, ?_, ?_⟩
    · exact votesOf_overwrite p.ledger u v
    · intro u' hu
      exact votesOf_overwrite_ne p.ledger v hu

/-- A single-choice concrete poll with one recorded vote. -/
def pollW2 : PollState :=
  { creator_id := "creator"
    message := "tea or coffee?"
    vote_options := ["Tea", "Coffee"]
    secret := false
    public := false
    max_votes := 1
    finished := false
    ledger := [("alice", 0)] }

/-- C2 instantiated on `pollW2` and voter `alice`. -/
theorem claim_C2_witness :
    (∀ casts p', (votes pollW2 "alice").length ≤ 1 →
      runVotes pollW2 "alice" casts = Except.ok p' →
      (votes p' "alice").length ≤ 1) ∧
    (∀ v : Int, pollW2.finished = false → 0 ≤ v →
      v < (pollW2.vote_options.length : Int) → v ∉ votes pollW2 "alice" →
      1 ≤ (votes pollW2 "alice").length →
      ∃ p', vote pollW2 "alice" v = Except.ok p' ∧
        p'.ledger = pollW2.ledger.filter (fun r => ¬(r.1 = "alice"))
          ++ [("alice", v)] ∧
        votes p' "alice" = [v] ∧
        (∀ u', "alice" ≠ u' → votes p' u' = votes pollW2 u')) :=
  claim_C2 pollW2 "alice" rfl

/-! ## Claim C3 -/

/-- C3: on an unfinished multi-choice poll (`max_votes > 1`) whose voter
already holds `max_votes` recorded options, casting a further valid, not
yet held option raises `NoMoreVotesError`; no successor state is produced,
so the prior records and all tallies are untouched. -/
theorem claim_C3 (p : PollState) (u : String) (X : Int)
    (hf : p.finished = false) (hM : 1 < p.max_votes)
    (hheld : (votes p u).length = p.max_votes)
    (h0 : 0 ≤ X) (hlt : X < (p.vote_options.length : Int))
    (hm : X ∉ votes p u) :
    vote p u X = Except.error VoteError.noMoreVotesError ∧
    (∀ q, vote p u X ≠ Except.ok q) := by
  have hr : ¬(X < 0 ∨ (p.vote_options.length : Int) ≤ X) := by omega
  have he := vote_no_more p u X hf hr hm (by omega) (by omega)
  refine ⟨he, ?_⟩
  intro q hq
  rw [he] at hq
  exact absurd hq (by simp)

/-- A poll with `max_votes = 2` whose voter `alice` already holds two
options. -/
def pollW3 : PollState :=
  { creator_id := "creator"
    message := "pick two"
    vote_options := ["A", "B", "C"]
    secret := false
    public := false
    max_votes := 2
    finished := false
    ledger := [("alice", 0), ("alice", 1)] }

/-- C3 instantiated on `pollW3`, voter `alice`, fresh option `2`. -/
theorem claim_C3_witness :
    vote pollW3 "alice" 2 = Except.error VoteError.noMoreVotesError ∧
    (∀ q, vote pollW3 "alice" 2 ≠ Except.ok q) :=
  claim_C3 pollW3 "alice" 2 rfl (by decide) (by decide) (by decide)
    (by decide) (by decide)

/-! ## Claim C4 -/

/-- C4: after `end()` the poll reports finished and stays finished under
every operation; any later `vote`, for any voter and any option index
whatsoever, returns without error with the state (hence `votes`,
`count_votes` and `num_votes`) unchanged; a second `end()` is a no-op. -/
theorem claim_C4 (p : PollState) :
    is_finished (endPoll p) = true ∧
    endPoll (endPoll p) = endPoll p ∧
    (∀ u v, vote (endPoll p) u v = Except.ok (endPoll p)) ∧
    (∀ u v q, vote (endPoll p) u v = Except.ok q →
      (∀ u', votes q u' = votes (endPoll p) u') ∧
      (∀ i, count_votes q i = count_votes (endPoll p) i) ∧
      num_votes q = num_votes (endPoll p)) ∧
    (∀ q u v q', is_finished q = true → vote q u v = Except.ok q' →
      is_finished q' = true) ∧
    (∀ q, is_finished q = true → is_finished (endPoll q) = true) := by
  have hfin : ∀ q : PollState, is_finished q = true → q.finished = true :=
    fun q h => h
  refine ⟨rfl, rfl, ?_, ?_, ?_, ?_⟩
  · intro u v
    exact vote_of_finished (endPoll p) u v rfl
  · intro u v q hq
    rw [vote_of_finished (endPoll p) u v rfl] at hq
    rw [show q = endPoll p from (Except.ok.inj hq).symm]
    exact ⟨fun _ => rfl, fun _ => rfl, rfl⟩
  · intro q u v q' hq hok
    rw [vote_of_finished q u v (hfin q hq)] at hok
    rw [show q' = q from (Except.ok.inj hok).symm]
    exact hq
  · intro q _
    rfl

/-- C4 instantiated on `pollW1`. -/
theorem claim_C4_witness :
    is_finished (endPoll pollW1) = true ∧
    endPoll (endPoll pollW1) = endPoll pollW1 ∧
    (∀ u v, vote (endPoll pollW1) u v = Except.ok (endPoll pollW1)) ∧
    (∀ u v q, vote (endPoll pollW1) u v = Except.ok q →
      (∀ u', votes q u' = votes (endPoll pollW1) u') ∧
      (∀ i, count_votes q i = count_votes (endPoll pollW1) i) ∧
      num_votes q = num_votes (endPoll pollW1)) ∧
    (∀ q u v q', is_finished q = true → vote q u v = Except.ok q' →
      is_finished q' = true) ∧
    (∀ q, is_finished q = true → is_finished (endPoll q) = true) :=
  claim_C4 pollW1

/-! ## Claim C5 -/

/-- C5: on an unfinished poll, an out-of-range option index (negative or
`≥ len(vote_options)`) makes `vote` raise the index error, an error kind
distinct from `NoMoreVotesError` (and from the silent finished no-op,
which returns success); no successor state is produced, so the ledger is
unchanged. -/
theorem claim_C5 (p : PollState) (u : String) (v : Int)
    (hf : p.finished = false)
    (hout : v < 0 ∨ (p.vote_options.length : Int) ≤ v) :
    vote p u v = Except.error VoteError.indexError ∧
    VoteError.indexError ≠ VoteError.noMoreVotesError ∧
    (∀ q, vote p u v ≠ Except.ok q) := by
  have he := vote_out_of_range p u v hf hout
  refine ⟨he, by simp, ?_⟩
  intro q hq
  rw [he] at hq
  exact absurd hq (by simp)

/-- C5 instantiated on `pollW1` at `-1` and at `len(vote_options)`. -/
theorem claim_C5_witness :
    (vote pollW1 "zoe" (-1) = Except.error VoteError.indexError ∧
      VoteError.indexError ≠ VoteError.noMoreVotesError ∧
      (∀ q, vote pollW1 "zoe" (-1) ≠ Except.ok q)) ∧
    (vote pollW1 "zoe" 2 = Except.error VoteError.indexError ∧
      VoteError.indexError ≠ VoteError.noMoreVotesError ∧
      (∀ q, vote pollW1 "zoe" 2 ≠ Except.ok q)) :=
  ⟨claim_C5 pollW1 "zoe" (-1) rfl (by decide),
   claim_C5 pollW1 "zoe" 2 rfl (by decide)⟩

/-! ## Claim C6 -/

/-- C6: `create` replaces an empty option list by `["Yes", "No"]`, keeps a
nonempty one as given, and stores the caller's `max_votes` clamped into
`[1, len(vote_options)]`; hence every created poll has at least one option
and `1 ≤ max_votes ≤ len(vote_options)`. -/
theorem claim_C6 (c m : String) (opts : List String) (s pub : Bool)
    (mv : Int) :
    ((opts = [] → (create c m opts s pub mv).vote_options = ["Yes", "No"]) ∧
     (opts ≠ [] → (create c m opts s pub mv).vote_options = opts)) ∧
    ((create c m opts s pub mv).max_votes : Int)
      = max 1 (min mv ((create c m opts s pub mv).vote_options.length : Int)) ∧
    1 ≤ (create c m opts s pub mv).max_votes ∧
    (create c m opts s pub mv).max_votes
      ≤ (create c m opts s pub mv).vote_options.length ∧
    1 ≤ (create c m opts s pub mv).vote_options.length := by
  have hopts : (create c m opts s pub mv).vote_options
      = if opts.isEmpty then ["Yes", "No"] else opts := rfl
  have hmv : (create c m opts s pub mv).max_votes
      = (max 1 (min mv (((if opts.isEmpty then ["Yes", "No"] else opts)
          ).length : Int))).toNat := rfl
  have hlen1 : 1 ≤ ((if opts.isEmpty then ["Yes", "No"] else opts)).length := by
    by_cases h : opts.isEmpty
    · rw [if_pos h]; decide
    · rw [if_neg h]
      cases opts with
      | nil => simp at h
      | cons a l => simp
  refine ⟨⟨?_, ?_⟩, ?_, ?_, ?_, ?_⟩
  · intro h
    rw [hopts, if_pos (by simp [h])]
  · intro h
    rw [hopts, if_neg (by simpa using h)]
  · rw [hopts, hmv]
    rw [Int.toNat_of_nonneg (by omega)]
  · rw [hmv]
    omega
  · rw [hmv, hopts]
    omega
  · rw [hopts]
    exact hlen1

/-- C6 at the spec's two examples: empty options with `max_votes = 1`, and
two options with `max_votes = 5`. -/
theorem claim_C6_witness :
    (create "c" "m" [] false false 1).vote_options = ["Yes", "No"] ∧
    (create "c" "m" [] false false 1).max_votes = 1 ∧
    (create "c" "m" ["Tea", "Coffee"] false false 5).max_votes = 2 ∧
    (create "c" "m" ["Tea", "Coffee"] false false 5).vote_options
      = ["Tea", "Coffee"] :=
  ⟨(claim_C6 "c" "m" [] false false 1).1.1 rfl, by decide, by decide,
   (claim_C6 "c" "m" ["Tea", "Coffee"] false false 5).1.2 (by decide)⟩

/-! ## Claim C7: the database rows behind `load` / `Poll.__init__` -/

/-- One row of the `Polls` table (without its `poll_id` key column). -/
structure PollRow where
  creator : String
  message : String
  finished : Bool
  secret : Bool
  public : Bool
  max_votes : Int
  deriving Repr, DecidableEq

/-- One row of the `VoteOptions` table. -/
structure OptionRow where
  poll_id : Nat
  number : Nat
  name : String
  deriving Repr, DecidableEq

/-- The two tables `Poll.__init__` reads. `poll_id` is the `Polls` primary
key, so `find?` models `fetchone` on `SELECT ... WHERE poll_id=?`. -/
structure DB where
  polls : List (Nat × PollRow)
  voteOptions : List OptionRow
  deriving Repr, DecidableEq

/-- The single error kind of `create`/`load`: `InvalidPollError`. -/
inductive PollLoadError where
  | invalidPollError
  deriving Repr, DecidableEq

/-- The fields `Poll.__init__` populates on the loaded instance. -/
structure LoadedPoll where
  id : Nat
  vote_options : List String
  creator_id : String
  message : String
  secret : Bool
  public : Bool
  max_votes : Int
  deriving Repr, DecidableEq

/-- `SELECT name FROM VoteOptions WHERE poll_id=? ORDER BY number ASC`. -/
def optionNames (db : DB) (id : Nat) : List String :=
  ((db.voteOptions.filter (fun r => r.poll_id = id)).mergeSort
    (fun a b => a.number ≤ b.number)).map (fun r => r.name)

/-- `Poll.load` / `Poll.__init__`: build the option list; an empty list or
a missing `Polls` row raises `InvalidPollError`, otherwise every field is
populated from the row. -/
def loadPoll (db : DB) (id : Nat) : Except PollLoadError LoadedPoll :=
  if optionNames db id = [] then Except.error PollLoadError.invalidPollError
  else
    match db.polls.find? (fun r => r.1 = id) with
    | none => Except.error PollLoadError.invalidPollError
    | some (_, row) =>
      Except.ok
        { id := id
          vote_options := optionNames db id
          creator_id := row.creator
          message := row.message
          secret := row.secret
          public := row.public
          max_votes := row.max_votes }

theorem optionNames_eq_nil (db : DB) (id : Nat) :
    optionNames db id = [] ↔
      db.voteOptions.filter (fun r => r.poll_id = id) = [] := by
  unfold optionNames
  rw [List.map_eq_nil_iff]
  constructor
  · intro h
    have hperm := List.mergeSort_perm
      (db.voteOptions.filter (fun r => r.poll_id = id))
      (fun a b => a.number ≤ b.number)
    rw [h] at hperm
    exact List.eq_nil_of_length_eq_zero hperm.symm.length_eq
  · intro h
    rw [h, List.mergeSort_nil]
/-- C7: `load` yields either a fully populated poll (every field taken
from the stored rows) or `InvalidPollError`, the latter exactly when no
option rows exist for the id or the `Polls` metadata row is absent; no
other error kind is surfaced and no partially constructed poll is
observable. -/
theorem claim_C7 (db : DB) (pid : Nat) :
    ((∃ e, loadPoll db pid = Except.error e) ↔
      (db.voteOptions.filter (fun r => r.poll_id = pid) = [] ∨
       db.polls.find? (fun r => r.1 = pid) = none)) ∧
    (∀ e, loadPoll db pid = Except.error e →
      e = PollLoadError.invalidPollError) ∧
    (∀ lp, loadPoll db pid = Except.ok lp →
      lp.id = pid ∧ lp.vote_options = optionNames db pid ∧
      ∃ pr, db.polls.find? (fun r => r.1 = pid) = some (pid, pr) ∧
        lp.creator_id = pr.creator ∧ lp.message = pr.message ∧
        lp.secret = pr.secret ∧ lp.public = pr.public ∧
        lp.max_votes = pr.max_votes) := by
  refine ⟨?_, fun e _ => by cases e; rfl, ?_⟩
  · by_cases hopt : optionNames db pid = []
    · have hload : loadPoll db pid
          = Except.error PollLoadError.invalidPollError := by
        unfold loadPoll
        rw [if_pos hopt]
      exact ⟨fun _ => Or.inl ((optionNames_eq_nil db pid).mp hopt),
        fun _ => ⟨PollLoadError.invalidPollError, hload⟩⟩
    · cases hfind : db.polls.find? (fun r => r.1 = pid) with
      | none =>
        have hload : loadPoll db pid
            = Except.error PollLoadError.invalidPollError := by
          unfold loadPoll
          rw [if_neg hopt, hfind]
        exact ⟨fun _ => Or.inr rfl,
          fun _ => ⟨PollLoadError.invalidPollError, hload⟩⟩
      | some kpr =>
        obtain ⟨k, pr⟩ := kpr
        have hload : loadPoll db pid = Except.ok
            { id := pid
              vote_options := optionNames db pid
              creator_id := pr.creator
              message := pr.message
              secret := pr.secret
              public := pr.public
              max_votes := pr.max_votes } := by
          unfold loadPoll
          rw [if_neg hopt, hfind]
        constructor
        · rintro ⟨e, he⟩
          rw [hload] at he
          exact absurd he (by simp)
        · rintro (h | h)
          · exact absurd h ((not_iff_not.mpr
              (optionNames_eq_nil db pid)).mp hopt)
          · exact absurd h (by simp)
  · intro lp hlp
    by_cases hopt : optionNames db pid = []
    · rw [show loadPoll db pid = Except.error PollLoadError.invalidPollError
        from by unfold loadPoll; rw [if_pos hopt]] at hlp
      exact absurd hlp (by simp)
    · cases hfind : db.polls.find? (fun r => r.1 = pid) with
      | none =>
        rw [show loadPoll db pid
            = Except.error PollLoadError.invalidPollError
          from by unfold loadPoll; rw [if_neg hopt, hfind]] at hlp
        exact absurd hlp (by simp)
      | some kpr =>
        obtain ⟨k, pr⟩ := kpr
        have hk : k = pid := by
          have := List.find?_some hfind
          simpa using this
        have hload : loadPoll db pid = Except.ok
            { id := pid
              vote_options := optionNames db pid
              creator_id := pr.creator
              message := pr.message
              secret := pr.secret
              public := pr.public
              max_votes := pr.max_votes } := by
          unfold loadPoll
          rw [if_neg hopt, hfind]
        rw [hload] at hlp
        rw [show lp = _ from (Except.ok.inj hlp).symm]
        refine ⟨rfl, rfl, pr, ?_, rfl, rfl, rfl, rfl, rfl⟩
        rw [hk]

/-- A two-table store holding one poll (id 1) with two options. -/
def dbW : DB :=
  { polls := [(1, { creator := "creator"
                    message := "q?"
                    finished := false
                    secret := false
                    public := false
                    max_votes := 1 })]
    voteOptions := [{ poll_id := 1, number := 0, name := "Yes" },
                    { poll_id := 1, number := 1, name := "No" }] }

/-- C7 instantiated on `dbW`: loading the missing id 2 errors, loading
id 1 is fully populated. -/
theorem claim_C7_witness :
    (∃ e, loadPoll dbW 2 = Except.error e) ∧
    (∀ lp, loadPoll dbW 1 = Except.ok lp →
      lp.id = 1 ∧ lp.vote_options = optionNames dbW 1 ∧
      ∃ pr, dbW.polls.find? (fun r => r.1 = 1) = some (1, pr) ∧
        lp.creator_id = pr.creator ∧ lp.message = pr.message ∧
        lp.secret = pr.secret ∧ lp.public = pr.public ∧
        lp.max_votes = pr.max_votes) :=
  ⟨(claim_C7 dbW 2).1.mpr (Or.inl (by decide)), (claim_C7 dbW 1).2.2⟩

/-! ## Claim C8 -/

/-- Each in-range ledger row is counted by exactly one option index, so
summing the per-option counts over the whole option range recovers the
ledger size. -/
theorem countP_sum_range (n : Nat) :
    ∀ L : List (String × Int), (∀ r ∈ L, 0 ≤ r.2 ∧ r.2 < (n : Int)) →
      (∑ i in Finset.range n, L.countP (fun r => r.2 = (i : Int)))
        = L.length := by
  intro L
  induction L with
  | nil => intro _; simp
  | cons a L ih =>
    intro hr
    have hbound := hr a (List.mem_cons_self a L)
    have htail : ∀ r ∈ L, 0 ≤ r.2 ∧ r.2 < (n : Int) :=
      fun r h => hr r (List.mem_cons_of_mem a h)
    have hstep : ∀ i ∈ Finset.range n,
        (a :: L).countP (fun r => r.2 = (i : Int))
          = L.countP (fun r => r.2 = (i : Int))
            + (if a.2.toNat = i then 1 else 0) := by
      intro i _
      rw [List.countP_cons]
      congr 1
      by_cases h : a.2 = (i : Int)
      · rw [if_pos (by simpa using h), if_pos (by omega)]
      · rw [if_neg (by simpa using h), if_neg (by omega)]
    rw [Finset.sum_congr rfl hstep, Finset.sum_add_distrib, ih htail,
      Finset.sum_ite_eq (Finset.range n) a.2.toNat (fun _ => 1),
      if_pos (Finset.mem_range.mpr (by omega))]
    simp

/-- The number of recorded votes of one voter, seen through the column of
voter names. -/
theorem count_map_fst (L : List (String × Int)) (u : String) :
    (L.map (fun r => r.1)).count u = (votesOf L u).length := by
  rw [List.count_eq_countP, List.countP_map]
  rw [votesOf, List.length_map, ← List.countP_eq_length_filter]
  apply List.countP_congr
  intro a _
  simp [Function.comp]

/-- C8: in every reachable state, `num_votes` is the sum of
`count_votes i` over the valid option indices, `num_voters ≤ num_votes`,
and they are equal exactly when every voter holding at least one record
holds exactly one. -/
theorem claim_C8 (p : PollState) (hre : Reachable p) :
    num_votes p = (∑ i in Finset.range p.vote_options.length,
      count_votes p (i : Int)) ∧
    num_voters p ≤ num_votes p ∧
    (num_voters p = num_votes p ↔
      ∀ u, votes p u ≠ [] → (votes p u).length = 1) := by
  obtain ⟨_, hrange⟩ := reachable_wf p hre
  have hmaplen : num_votes p = (p.ledger.map (fun r => r.1)).length := by
    rw [num_votes, List.length_map]
  refine ⟨?_, ?_, ?_, ?_⟩
  · have hsum := countP_sum_range p.vote_options.length p.ledger hrange
    rw [num_votes, ← hsum]
    apply Finset.sum_congr rfl
    intro i _
    rw [count_votes, ← List.countP_eq_length_filter]
  · rw [num_voters, hmaplen]
    exact (List.dedup_sublist _).length_le
  · intro heq u hne
    have hnd : (p.ledger.map (fun r => r.1)).Nodup := by
      rw [← List.dedup_eq_self]
      apply (List.dedup_sublist _).eq_of_length
      rw [← num_voters, heq, hmaplen]
    have hle := List.nodup_iff_count_le_one.mp hnd u
    rw [count_map_fst] at hle
    have hpos : 0 < (votes p u).length := List.length_pos.mpr hne
    simp only [votes] at hpos hle ⊢
    omega
  · intro h
    have hnd : (p.ledger.map (fun r => r.1)).Nodup := by
      rw [List.nodup_iff_count_le_one]
      intro u
      rw [count_map_fst]
      by_cases hne : votes p u = []
      · simp only [votes] at hne
        rw [hne]
        simp
      · have := h u hne
        simp only [votes] at this
        omega
    rw [num_voters, List.dedup_eq_self.mpr hnd, ← hmaplen]

/-- The state reached by creating a two-option poll with `max_votes = 2`
and having `alice` cast option 0. -/
def pollW8 : PollState :=
  { creator_id := "c"
    message := "m"
    vote_options := ["Yes", "No"]
    secret := false
    public := false
    max_votes := 2
    finished := false
    ledger := [("alice", 0)] }

/-- C8 instantiated at the reachable state `pollW8`. -/
theorem claim_C8_witness :
    num_votes pollW8 = (∑ i in Finset.range pollW8.vote_options.length,
      count_votes pollW8 (i : Int)) ∧
    num_voters pollW8 ≤ num_votes pollW8 ∧
    (num_voters pollW8 = num_votes pollW8 ↔
      ∀ u, votes pollW8 u ≠ [] → (votes pollW8 u).length = 1) :=
  claim_C8 pollW8
    (Reachable.voted (create "c" "m" ["Yes", "No"] false false 2) "alice" 0
      pollW8 (Reachable.created "c" "m" ["Yes", "No"] false false 2)
      (by rfl))

/-! ## Claims C9 and C10 -/

/-- C9: `count_votes` returns 0 (not an error) on any out-of-range option
index, and on any index it returns the number of ledger rows for that
option, i.e. the size of that option's voter roster. -/
theorem claim_C9 (p : PollState) (hre : Reachable p) (v : Int) :
    ((v < 0 ∨ (p.vote_options.length : Int) ≤ v) → count_votes p v = 0) ∧
    count_votes p v = (voters p v).length := by
  obtain ⟨_, hrange⟩ := reachable_wf p hre
  constructor
  · intro hout
    rw [count_votes]
    rw [List.filter_eq_nil_iff.mpr ?_]
    · rfl
    · intro r hr
      simp only [decide_eq_true_eq]
      have := hrange r hr
      omega
  · rw [count_votes, voters, List.length_map]

/-- C9 instantiated at `pollW8` and index `-1`. -/
theorem claim_C9_witness :
    (((-1 : Int) < 0 ∨ (pollW8.vote_options.length : Int) ≤ -1) →
      count_votes pollW8 (-1) = 0) ∧
    count_votes pollW8 (-1) = (voters pollW8 (-1)).length :=
  claim_C9 pollW8
    (Reachable.voted (create "c" "m" ["Yes", "No"] false false 2) "alice" 0
      pollW8 (Reachable.created "c" "m" ["Yes", "No"] false false 2)
      (by rfl))
    (-1)

theorem mem_voters {p : PollState} {u : String} {v : Int} :
    u ∈ voters p v ↔ (u, v) ∈ p.ledger := by
  simp only [voters, List.mem_map, List.mem_filter, decide_eq_true_eq]
  constructor
  · rintro ⟨⟨a, b⟩, ⟨hmem, h1⟩, h2⟩
    simp only at h1 h2
    subst h1; subst h2; exact hmem
  · intro h
    exact ⟨(u, v), ⟨h, rfl⟩, rfl⟩

/-- C10: in every reachable state the query results are consistent views
of the one ledger: `u ∈ voters(i)` iff `i ∈ votes(u)`, both lists are
duplicate-free, and `count_votes(i)` is the length of `voters(i)`. -/
theorem claim_C10 (p : PollState) (hre : Reachable p) :
    (∀ u : String, ∀ i : Int, u ∈ voters p i ↔ i ∈ votes p u) ∧
    (∀ i : Int, (voters p i).Nodup) ∧
    (∀ u : String, (votes p u).Nodup) ∧
    (∀ i : Int, count_votes p i = (voters p i).length) := by
  obtain ⟨hnd, _⟩ := reachable_wf p hre
  refine ⟨?_, ?_, ?_, ?_⟩
  · intro u i
    rw [mem_voters, mem_votes]
  · intro i
    apply (hnd.filter _).map_on
    intro x hx y hy hxy
    have hx2 := List.of_mem_filter hx
    have hy2 := List.of_mem_filter hy
    simp only [decide_eq_true_eq] at hx2 hy2
    obtain ⟨x1, x2⟩ := x
    obtain ⟨y1, y2⟩ := y
    simp only at hx2 hy2 hxy
    rw [hxy, hx2, hy2]
  · intro u
    apply (hnd.filter _).map_on
    intro x hx y hy hxy
    have hx1 := List.of_mem_filter hx
    have hy1 := List.of_mem_filter hy
    simp only [decide_eq_true_eq] at hx1 hy1
    obtain ⟨x1, x2⟩ := x
    obtain ⟨y1, y2⟩ := y
    simp only at hx1 hy1 hxy
    rw [hxy, hx1, hy1]
  · intro i
    rw [count_votes, voters, List.length_map]

/-- C10 instantiated at `pollW8`. -/
theorem claim_C10_witness :
    (∀ u : String, ∀ i : Int, u ∈ voters pollW8 i ↔ i ∈ votes pollW8 u) ∧
    (∀ i : Int, (voters pollW8 i).Nodup) ∧
    (∀ u : String, (votes pollW8 u).Nodup) ∧
    (∀ i : Int, count_votes pollW8 i = (voters pollW8 i).length) :=
  claim_C10 pollW8
    (Reachable.voted (create "c" "m" ["Yes", "No"] false false 2) "alice" 0
      pollW8 (Reachable.created "c" "m" ["Yes", "No"] false false 2)
      (by rfl))
